import Mathlib

/-!
# media-testing: a batch test harness for media files (`main.go`)

A shallow embedding of `main.go` and proofs about it.

* Go strings are lists of characters (`GoString`).  The path routines of the Go
  standard library used by the program (`filepath.Ext`, `filepath.Base`,
  `filepath.Clean`, `filepath.Join`, Unix flavour, separator `/`) are embedded
  concretely.
* Everything the program obtains from outside (the file system, the
  `lilliput` decoder library, `filepath.Match`, `strings.ToLower`, the order in
  which Go ranges over a map) is a field of `Env`, over an arbitrary world
  state `σ` threaded through every call, so that each theorem holds for every
  possible outcome of every external call.
* The two package-level variables `testsFailed` and `expectedFailures` are
  fields of `State`, next to the world and to the lines of standard output
  that name a call, a written file or an outcome.
* Go's `int` and `time.Duration` are `Int`: the program only compares them with
  zero and halves them, so no operation can overflow; `/` is `Int.tdiv`.
* `log.Fatalf` and `os.Exit` end the run: `processTestFiles` returns an
  `Except`, and `main` returns the exit code.
-/

namespace MediaTesting

/-! ## Strings and paths -/

/-- Go strings, as lists of characters. -/
abbrev GoString := List Char

/-- The path separator (`os.PathSeparator` on Unix). -/
def Separator : Char := '/'

/-- The scan of `filepath.Ext`, from the last character backwards: `rev` holds
the characters not yet visited (last first), `acc` the characters already
visited.  The scan stops with the empty string at a separator, and with the
suffix starting at the dot when it meets a dot. -/
def extScan : List Char → List Char → GoString
  | [], _ => []
  | c :: rev, acc =>
    if c = Separator then []
    else if c = '.' then '.' :: acc
    else extScan rev (c :: acc)

/-- `filepath.Ext`: the suffix beginning at the final dot in the final element
of the path; empty if there is no dot. -/
def Ext (path : GoString) : GoString :=
  extScan path.reverse []

/-- `filepath.Base`: the last element of the path, trailing separators
removed; `.` for the empty path and `/` for a path of separators only. -/
def Base (path : GoString) : GoString :=
  if path = [] then ['.']
  else
    let stripped := (path.reverse.dropWhile (fun c => c == Separator))
    let last := (stripped.takeWhile (fun c => c != Separator)).reverse
    if last = [] then [Separator] else last

/-- The elements of a path: the pieces between separators (possibly empty). -/
def splitPath : GoString → List GoString
  | [] => [[]]
  | c :: cs =>
    if c = Separator then [] :: splitPath cs
    else
      match splitPath cs with
      | [] => [[c]]
      | s :: ss => (c :: s) :: ss

/-- The output buffer of `filepath.Clean`: the bytes written so far and the
index `dotdot` below which a `..` element must not backtrack. -/
structure CleanBuf where
  out : List Char
  dotdot : Nat
deriving DecidableEq, Repr

/-- The inner loop of the `..` case of `filepath.Clean`:
`for out.w > dotdot && !IsPathSeparator(out.index(out.w)) { out.w-- }`. -/
def backLoop (out : List Char) (dotdot : Nat) : Nat → Nat
  | 0 => 0
  | w + 1 =>
    if w + 1 > dotdot ∧ out.get? (w + 1) ≠ some Separator then backLoop out dotdot w
    else w + 1

/-- One iteration of the main loop of `filepath.Clean`, which consumes one path
element. -/
def cleanStep (rooted : Bool) (b : CleanBuf) (seg : GoString) : CleanBuf :=
  if seg = [] then b
  else if seg = ['.'] then b
  else if seg = ['.', '.'] then
    if b.out.length > b.dotdot then
      { b with out := b.out.take (backLoop b.out b.dotdot (b.out.length - 1)) }
    else if !rooted then
      let out1 := if b.out.length > 0 then b.out ++ [Separator] else b.out
      let out2 := out1 ++ ['.', '.']
      { out := out2, dotdot := out2.length }
    else b
  else
    if (rooted && b.out.length != 1) || (!rooted && b.out.length != 0) then
      { b with out := b.out ++ Separator :: seg }
    else
      { b with out := b.out ++ seg }

/-- Whether a path starts with a separator. -/
def isRooted (path : GoString) : Bool :=
  match path with
  | [] => false
  | c :: _ => c == Separator

/-- The buffer with which `filepath.Clean` starts. -/
def cleanInit (rooted : Bool) : CleanBuf :=
  if rooted then { out := [Separator], dotdot := 1 } else { out := [], dotdot := 0 }

/-- `filepath.Clean`: the shortest path name equivalent to `path` by purely
lexical processing. -/
def Clean (path : GoString) : GoString :=
  if path = [] then ['.']
  else
    let rooted := isRooted path
    let b := (splitPath path).foldl (cleanStep rooted) (cleanInit rooted)
    if b.out = [] then ['.'] else b.out

/-- `filepath.Join` of two elements: empty elements are ignored, the rest is
joined with the separator and cleaned; the result is empty if both are. -/
def Join (a b : GoString) : GoString :=
  if a ≠ [] then Clean (a ++ Separator :: b)
  else if b ≠ [] then Clean b
  else []

/-- What `filepath.Clean` has written when it has consumed the elements `init`
and is about to copy one more element that is neither empty, `.` nor `..`:
the buffer, and the separator if one is needed. -/
def cleanPrefix (rooted : Bool) (init : List GoString) : List Char :=
  let b := init.foldl (cleanStep rooted) (cleanInit rooted)
  if (rooted && b.out.length != 1) || (!rooted && b.out.length != 0) then
    b.out ++ [Separator]
  else b.out

/-- In a rooted path the buffer of `filepath.Clean` always starts with the
separator, and `dotdot` stays 1. -/
def CleanRooted (rooted : Bool) (b : CleanBuf) : Prop :=
  rooted = true → b.dotdot = 1 ∧ ∃ t, b.out = Separator :: t

/-- A name of a directory entry: not empty, without a separator, and neither
`.` nor `..` (`ioutil.ReadDir` returns no other names). -/
def validName (name : GoString) : Prop :=
  name ≠ [] ∧ Separator ∉ name ∧ name ≠ ['.'] ∧ name ≠ ['.', '.']

instance (name : GoString) : Decidable (validName name) := by
  unfold validName
  infer_instance

/-! ## The outside world -/

/-- File contents. -/
abbrev Bytes := List UInt8

/-- An entry of a directory listing (`os.FileInfo`), as far as the program
reads it. -/
structure FileInfo where
  name : GoString
  isDir : Bool
deriving DecidableEq, Repr

/-- The header of a decoded image (`lilliput.ImageHeader`): the values of
`Width()`, `Height()` (Go `int`) and `IsAnimated()`. -/
structure ImageHeader where
  width : Int
  height : Int
  isAnimated : Bool
deriving DecidableEq, Repr

/-- The resize methods of `lilliput` (`ImageOpsSizeMethod`). -/
inductive ResizeMethod
  | ImageOpsNoResize
  | ImageOpsFit
  | ImageOpsResize
deriving DecidableEq, Repr

/-- The keys of `lilliput` encode options the program uses. -/
inductive EncodeKey
  | WebpQuality
deriving DecidableEq, Repr

/-- The transform options (`lilliput.ImageOptions`). -/
structure ImageOptions where
  FileType : GoString
  Width : Int
  Height : Int
  ResizeMethod : ResizeMethod
  NormalizeOrientation : Bool
  EncodeOptions : List (EncodeKey × Int)
  EncodeTimeout : Int
  DisableAnimatedOutput : Bool
deriving DecidableEq, Repr

/-- Everything the program calls outside itself, over a world state `σ` and a
type `δ` of decoder handles.  A call that can fail returns `none` (or `false`
for `writeFile`) when it does.

* `readDir`, `readFile`, `writeFile`: `ioutil.ReadDir`, `ioutil.ReadFile`,
  `ioutil.WriteFile`;
* `newDecoder`, `header`, `duration`, `closeDecoder`: `lilliput.NewDecoder` and
  the methods `Header`, `Duration` and `Close` of a decoder;
* `newImageOps`, `closeOps`, `transform`: `lilliput.NewImageOps` and the methods
  `Close` and `Transform` (the destination buffer of 50 MiB the program hands
  over is part of the world);
* `pathMatch`: `filepath.Match`, returning the pair `(matched, err ≠ nil)`;
* `toLower`: `strings.ToLower`;
* `rangeOrder`: the order in which `range` visits the keys of a map, which Go
  leaves unspecified: some permutation of the keys. -/
structure Env (σ δ : Type) where
  readDir : GoString → σ → Option (List FileInfo) × σ
  readFile : GoString → σ → Option Bytes × σ
  writeFile : GoString → Bytes → σ → Bool × σ
  newDecoder : Bytes → σ → Option δ × σ
  header : δ → σ → Option ImageHeader × σ
  duration : δ → σ → Int
  closeDecoder : δ → σ → σ
  newImageOps : Nat → σ → σ
  closeOps : σ → σ
  transform : δ → ImageOptions → σ → Option Bytes × σ
  pathMatch : GoString → GoString → Bool × Bool
  toLower : GoString → GoString
  rangeOrder : List GoString → List GoString
  rangeOrder_perm : ∀ ks, (rangeOrder ks).Perm ks

/-- The lines of standard output that identify a call, a written file or an
outcome (the descriptive lines, and the log lines on standard error, carry
nothing the program reads back and are left out):

* `usage`: line 25; `someFailed`, `allPassed`: lines 38 and 41;
* `processing ext`: line 61, at the start of the group of `ext`;
* `testingGraphical path`: line 86, printed on entry of `testGraphicalFile`;
* `inspecting path`: line 207, printed on entry of `testNonGraphicalFile`;
* `savedTo path`: line 202, printed after `path` was written successfully;
* `expectedNote`: lines 158 and 274; `testCompleted`: line 161;
  `inspectionCompleted`: line 278. -/
inductive Line
  | usage
  | someFailed
  | allPassed
  | processing (ext : GoString)
  | testingGraphical (path : GoString)
  | inspecting (path : GoString)
  | savedTo (path : GoString)
  | expectedNote
  | testCompleted
  | inspectionCompleted
deriving DecidableEq, Repr

/-- The state of the process: the package-level variables `testsFailed` and
`expectedFailures`, the world, and what was printed on standard output. -/
structure State (σ : Type) where
  testsFailed : Bool
  expectedFailures : GoString
  world : σ
  stdout : List Line

/-- Print a line on standard output. -/
def State.emit {σ : Type} (st : State σ) (l : Line) : State σ :=
  { st with stdout := st.stdout ++ [l] }

/-! ## The program -/

/-- The table `graphicalFormats` (lines 15-18). -/
def graphicalFormatsTable : List (GoString × Bool) :=
  [(".jpg".toList, true), (".jpeg".toList, true), (".png".toList, true),
   (".gif".toList, true), (".webp".toList, true), (".tiff".toList, true),
   (".bmp".toList, true)]

/-- The lookup `graphicalFormats[ext]`: `false` for a missing key. -/
def graphicalFormats (ext : GoString) : Bool :=
  match graphicalFormatsTable.lookup ext with
  | some b => b
  | none => false

/-- A Go `map[string][]string`, as an association list with distinct keys. -/
abbrev FileGroups := List (GoString × List GoString)

/-- The lookup `m[k]`: the nil slice for a missing key. -/
def mapGet (m : FileGroups) (k : GoString) : List GoString :=
  match m.lookup k with
  | some v => v
  | none => []

/-- The assignment `m[k] = v`. -/
def mapSet : FileGroups → GoString → List GoString → FileGroups
  | [], k, v => [(k, v)]
  | (k1, v1) :: m, k, v =>
    if k1 = k then (k, v) :: m else (k1, v1) :: mapSet m k v

/-- The keys of a map. -/
def mapKeys (m : FileGroups) : List GoString :=
  m.map Prod.fst

/-- The first loop of `processTestFiles` (lines 51-58). -/
def buildGroups {σ δ : Type} (env : Env σ δ) (dir : GoString) (files : List FileInfo) :
    FileGroups :=
  files.foldl
    (fun fileGroups file =>
      if !file.isDir then
        let ext := env.toLower (Ext file.name)
        mapSet fileGroups ext (mapGet fileGroups ext ++ [Join dir file.name])
      else fileGroups)
    []

/-- `isExpectedFailure` (lines 73-83). -/
def isExpectedFailure {σ δ : Type} (env : Env σ δ) (st : State σ) (filePath : GoString) :
    Bool :=
  if st.expectedFailures = [] then false
  else
    match env.pathMatch st.expectedFailures (Base filePath) with
    | (matched, err) => if err then false else matched

/-- `performTransform` (lines 165-204); the first component of the result is
`true` when the returned error is not nil. -/
def performTransform {σ δ : Type} (env : Env σ δ) (decoder : δ) (options : ImageOptions)
    (filePath outDir outputSuffix : GoString) (st : State σ) : Bool × State σ :=
  match env.transform decoder options st.world with
  | (none, w1) => (true, { st with world := w1 })
  | (some resizedBuffer, w1) =>
    match env.newDecoder resizedBuffer w1 with
    | (none, w2) => (true, { st with world := w2 })
    | (some resizedDecoder, w2) =>
      match env.header resizedDecoder w2 with
      | (none, w3) => (true, { st with world := env.closeDecoder resizedDecoder w3 })
      | (some resizedHeader, w3) =>
        if resizedHeader.width ≠ options.Width ∨ resizedHeader.height ≠ options.Height then
          (true, { st with world := env.closeDecoder resizedDecoder w3 })
        else
          let outputPath := Join outDir (Base filePath ++ outputSuffix)
          let wr := env.writeFile outputPath resizedBuffer w3
          if wr.1 then
            (false, { (st.emit (Line.savedTo outputPath)) with
                        world := env.closeDecoder resizedDecoder wr.2 })
          else (true, { st with world := env.closeDecoder resizedDecoder wr.2 })

/-- The options `commonOptions` (lines 114-127) for a source header. -/
def commonOptions (header : ImageHeader) : ImageOptions :=
  { FileType := ".webp".toList
    Width := header.width.tdiv 2
    Height := header.height.tdiv 2
    ResizeMethod := ResizeMethod.ImageOpsFit
    NormalizeOrientation := true
    EncodeOptions := [(EncodeKey.WebpQuality, 90)]
    EncodeTimeout := 1000000000 * 300
    DisableAnimatedOutput := true }

/-- Lines 88-152 of `testGraphicalFile`: the value of the local `failed`, the
state reached, and the deferred calls (`decoder.Close`, `ops.Close`), composed
in the order in which they run when the function returns. -/
def testGraphicalBody {σ δ : Type} (env : Env σ δ) (filePath outDir : GoString)
    (st : State σ) : Bool × State σ × (σ → σ) :=
  match env.readFile filePath st.world with
  | (none, w1) => (true, { st with world := w1 }, id)
  | (some buffer, w1) =>
    match env.newDecoder buffer w1 with
    | (none, w2) => (true, { st with world := w2 }, id)
    | (some decoder, w2) =>
      match env.header decoder w2 with
      | (none, w3) => (true, { st with world := w3 }, env.closeDecoder decoder)
      | (some header, w3) =>
        let w4 := env.newImageOps 8192 w3
        let r1 := performTransform env decoder (commonOptions header) filePath outDir
          "_resized.webp".toList { st with world := w4 }
        if header.isAnimated then
          match env.newDecoder buffer r1.2.world with
          | (none, w5) =>
            (true, { r1.2 with world := w5 },
              fun w => env.closeDecoder decoder (env.closeOps w))
          | (some decoder2, w5) =>
            let animatedOptions :=
              { commonOptions header with DisableAnimatedOutput := false }
            let r2 := performTransform env decoder2 animatedOptions filePath outDir
              "_resized_animated.webp".toList { r1.2 with world := w5 }
            (r1.1 || r2.1, r2.2,
              fun w => env.closeDecoder decoder (env.closeOps (env.closeDecoder decoder2 w)))
        else
          (r1.1, r1.2, fun w => env.closeDecoder decoder (env.closeOps w))

/-- `testGraphicalFile` (lines 85-163). -/
def testGraphicalFile {σ δ : Type} (env : Env σ δ) (filePath outDir : GoString)
    (st : State σ) : State σ :=
  let st0 := st.emit (Line.testingGraphical filePath)
  let expectedToFail := isExpectedFailure env st0 filePath
  let r := testGraphicalBody env filePath outDir st0
  let st2 :=
    if r.1 then
      if !expectedToFail then { r.2.1 with testsFailed := true }
      else r.2.1.emit Line.expectedNote
    else r.2.1.emit Line.testCompleted
  { st2 with world := r.2.2 st2.world }

/-- The `switch ext` of `testNonGraphicalFile` (lines 241-265): the value it
leaves in `failed`, which is `false` before it. -/
def extensionChecks (ext : GoString) (header : ImageHeader) (duration : Int) : Bool :=
  if ext = ".mp4".toList ∨ ext = ".webm".toList then
    let failed1 := if header.width = 0 ∨ header.height = 0 then true else false
    if duration ≤ 0 then true else failed1
  else if ext = ".mp3".toList ∨ ext = ".ogg".toList ∨ ext = ".flac".toList
      ∨ ext = ".wav".toList then
    if duration ≤ 0 then true else false
  else if ext = ".aac".toList then
    false
  else if ext = ".webp".toList then
    if header.width = 0 ∨ header.height = 0 then true else false
  else false

/-- Lines 209-268 of `testNonGraphicalFile`: the value of the local `failed`,
the state reached, and the deferred `decoder.Close`. -/
def testNonGraphicalBody {σ δ : Type} (env : Env σ δ) (filePath : GoString)
    (st : State σ) : Bool × State σ × (σ → σ) :=
  match env.readFile filePath st.world with
  | (none, w1) => (true, { st with world := w1 }, id)
  | (some buffer, w1) =>
    match env.newDecoder buffer w1 with
    | (none, w2) => (true, { st with world := w2 }, id)
    | (some decoder, w2) =>
      match env.header decoder w2 with
      | (none, w3) => (true, { st with world := w3 }, env.closeDecoder decoder)
      | (some header, w3) =>
        let ext := env.toLower (Ext filePath)
        (extensionChecks ext header (env.duration decoder w3), { st with world := w3 },
          env.closeDecoder decoder)

/-- `testNonGraphicalFile` (lines 206-279); `outDir` is not used. -/
def testNonGraphicalFile {σ δ : Type} (env : Env σ δ) (filePath _outDir : GoString)
    (st : State σ) : State σ :=
  let st0 := st.emit (Line.inspecting filePath)
  let expectedToFail := isExpectedFailure env st0 filePath
  let r := testNonGraphicalBody env filePath st0
  let st2 :=
    if r.1 then
      if !expectedToFail then { r.2.1 with testsFailed := true }
      else r.2.1.emit Line.expectedNote
    else r.2.1
  let st3 := st2.emit Line.inspectionCompleted
  { st3 with world := r.2.2 st3.world }

/-- The body of the inner loop of `processTestFiles` (lines 63-67): the
dispatch of one file of the group of `ext`. -/
def processFile {σ δ : Type} (env : Env σ δ) (outDir ext file : GoString)
    (st : State σ) : State σ :=
  if graphicalFormats ext then testGraphicalFile env file outDir st
  else testNonGraphicalFile env file outDir st

/-- The body of the loop over the groups in `processTestFiles` (lines 61-69),
for the group `files` of the key `ext`. -/
def processGroup {σ δ : Type} (env : Env σ δ) (outDir ext : GoString)
    (files : List GoString) (st : State σ) : State σ :=
  files.foldl (fun st file => processFile env outDir ext file st)
    (st.emit (Line.processing ext))

/-- The second loop of `processTestFiles` (lines 60-70), over the keys of the
map in the order `keys`. -/
def processGroups {σ δ : Type} (env : Env σ δ) (outDir : GoString) (fileGroups : FileGroups)
    (keys : List GoString) (st : State σ) : State σ :=
  keys.foldl (fun st ext => processGroup env outDir ext (mapGet fileGroups ext) st) st

/-- `processTestFiles` (lines 45-71): `Except.error` when `log.Fatalf` ends the
process because the directory cannot be read. -/
def processTestFiles {σ δ : Type} (env : Env σ δ) (dir outDir : GoString)
    (st : State σ) : Except (State σ) (State σ) :=
  match env.readDir dir st.world with
  | (none, w) => Except.error { st with world := w }
  | (some files, w) =>
    let fileGroups := buildGroups env dir files
    Except.ok (processGroups env outDir fileGroups (env.rangeOrder (mapKeys fileGroups))
      { st with world := w })

/-- Lines 31-33 of `main`: the optional third argument becomes
`expectedFailures`. -/
def setExpectedFailures {σ : Type} (args : List GoString) (st : State σ) : State σ :=
  if args.length > 3 then { st with expectedFailures := args.getD 3 [] } else st

/-- `main` (lines 23-43) on the arguments `args` (`os.Args`, the program name
first): the exit code of the process and the state it ends in. -/
def main {σ δ : Type} (env : Env σ δ) (args : List GoString) (st : State σ) :
    Nat × State σ :=
  if args.length < 3 then (1, st.emit Line.usage)
  else
    let testDir := args.getD 1 []
    let outDir := args.getD 2 []
    let st1 := setExpectedFailures args st
    match processTestFiles env testDir outDir st1 with
    | Except.error st2 => (1, st2)
    | Except.ok st2 =>
      if st2.testsFailed then (1, st2.emit Line.someFailed)
      else (0, st2.emit Line.allPassed)

/-- The output files written, in order, according to standard output: the
paths of the lines `Resized and saved to`, which `performTransform` prints
exactly when `ioutil.WriteFile` returned without error. -/
def savedPaths (out : List Line) : List GoString :=
  out.filterMap (fun l => match l with
    | Line.savedTo path => some path
    | _ => none)

/-! ## Unexpected failures, as the specification words them

A file has an unexpected failure when its processing sets the local `failed`
while `isExpectedFailure` is false for it.  The following definitions walk the
files in the order in which `processTestFiles` processes them and collect those
that have one. -/

/-- Whether processing `file` of the group of `ext` from the state `st` sets
`failed` while `isExpectedFailure` is false. -/
def fileUnexpected {σ δ : Type} (env : Env σ δ) (outDir ext file : GoString)
    (st : State σ) : Bool :=
  if graphicalFormats ext then
    (testGraphicalBody env file outDir (st.emit (Line.testingGraphical file))).1
      && !isExpectedFailure env st file
  else
    (testNonGraphicalBody env file (st.emit (Line.inspecting file))).1
      && !isExpectedFailure env st file

/-- The files of a group that have an unexpected failure, each processed from
the state the files before it left. -/
def groupUnexpected {σ δ : Type} (env : Env σ δ) (outDir ext : GoString) :
    List GoString → State σ → List GoString
  | [], _ => []
  | file :: files, st =>
    (if fileUnexpected env outDir ext file st then [file] else []) ++
      groupUnexpected env outDir ext files (processFile env outDir ext file st)

/-- The files of a run over the groups `keys` that have an unexpected failure. -/
def runUnexpected {σ δ : Type} (env : Env σ δ) (outDir : GoString) (fileGroups : FileGroups) :
    List GoString → State σ → List GoString
  | [], _ => []
  | ext :: keys, st =>
    groupUnexpected env outDir ext (mapGet fileGroups ext) (st.emit (Line.processing ext)) ++
      runUnexpected env outDir fileGroups keys
        (processGroup env outDir ext (mapGet fileGroups ext) st)

/-- Whether a line of standard output is the first line of a per-file routine
(`Testing graphical file` or `Inspecting file`). -/
def isCall : Line → Bool
  | Line.testingGraphical _ => true
  | Line.inspecting _ => true
  | _ => false

/-- The calls of the per-file routines, in order, according to standard
output. -/
def callLines (out : List Line) : List Line :=
  out.filter isCall

/-- The first line printed by the routine to which `processTestFiles` hands a
file of the group of `ext`. -/
def callLine (ext file : GoString) : Line :=
  if graphicalFormats ext then Line.testingGraphical file else Line.inspecting file

/-! ## A small simulated world, for concrete runs

File contents are three bytes `[width, height, frames]` followed by the
duration plus 100; the decoder of such a file is its header paired with its
duration; the transform produces the contents of an image of the requested
size.  The world state is the list of the files written so far. -/

/-- The decoder handles of the simulated world: a header and a duration. -/
abbrev SimDecoder := ImageHeader × Int

/-- Decode simulated file contents. -/
def simDecode : Bytes → Option SimDecoder
  | [w, h, f, d] =>
    some ({ width := w.toNat, height := h.toNat, isAnimated := decide (1 < f.toNat) },
      (d.toNat : Int) - 100)
  | _ => none

/-- Encode a simulated image. -/
def simEncode (w h : Int) (animated : Bool) : Bytes :=
  [UInt8.ofNat w.toNat, UInt8.ofNat h.toNat, if animated then 2 else 1, 99]

/-- The simulated world over the files `fs`, the directory listing `listing`
and the result `matcher` of `filepath.Match`. -/
def simEnv (fs : GoString → Option Bytes) (listing : Option (List FileInfo))
    (matcher : GoString → GoString → Bool × Bool) : Env (List GoString) SimDecoder :=
  { readDir := fun _ w => (listing, w)
    readFile := fun path w => (fs path, w)
    writeFile := fun path _ w => (true, w ++ [path])
    newDecoder := fun bytes w => (simDecode bytes, w)
    header := fun d w => (some d.1, w)
    duration := fun d _ => d.2
    closeDecoder := fun _ w => w
    newImageOps := fun _ w => w
    closeOps := fun w => w
    transform := fun d o w =>
      (some (simEncode o.Width o.Height (d.1.isAnimated && !o.DisableAnimatedOutput)), w)
    pathMatch := matcher
    toLower := fun s => s.map Char.toLower
    rangeOrder := fun ks => ks
    rangeOrder_perm := fun ks => List.Perm.refl ks }

/-- The state in which a process starts. -/
def initState {σ : Type} (w : σ) : State σ :=
  { testsFailed := false, expectedFailures := [], world := w, stdout := [] }

/-- A matcher that accepts exactly the names equal to the pattern, and reports
the pattern `[` as malformed. -/
def simMatch (pattern name : GoString) : Bool × Bool :=
  if pattern = ['['] then (false, true) else (decide (pattern = name), false)

/-- The simulated world with a transform that always fails. -/
def noTransformEnv (fs : GoString → Option Bytes) : Env (List GoString) SimDecoder :=
  { simEnv fs none simMatch with transform := fun _ _ w => (none, w) }

/-- The files of the directory `in` of the simulated runs: a static image of
64 by 64, an animated image of 32 by 32, and a video with duration 0. -/
def demoFiles (path : GoString) : Option Bytes :=
  if path = "in/a.png".toList then some [64, 64, 1, 99]
  else if path = "in/b.gif".toList then some [32, 32, 5, 99]
  else if path = "in/broken.mp4".toList then some [16, 16, 1, 100]
  else none

/-- The listing of the directory `in`, which also has a subdirectory. -/
def demoListing : List FileInfo :=
  [⟨"a.png".toList, false⟩, ⟨"b.gif".toList, false⟩, ⟨"broken.mp4".toList, false⟩,
   ⟨"sub.png".toList, true⟩]

/-- The simulated world of the directory `in`. -/
def demoEnv : Env (List GoString) SimDecoder :=
  simEnv demoFiles (some demoListing) simMatch

/-- The files of a directory holding an image `z.webp` whose header has
width and height 0, and a video `v.mp4` of 16 by 16 with duration 5. -/
def zeroFiles (path : GoString) : Option Bytes :=
  if path = "in/z.webp".toList then some [0, 0, 1, 99] else some [16, 16, 1, 105]

/-- The listing of that directory. -/
def zeroListing : List FileInfo :=
  [⟨"z.webp".toList, false⟩, ⟨"v.mp4".toList, false⟩]

/-- The simulated world of that directory. -/
def zeroEnv : Env (List GoString) SimDecoder :=
  simEnv zeroFiles (some zeroListing) simMatch

/-- A world in which every call succeeds, every decoder has the header `hdr`
and the duration `dur`, and nothing matches. -/
def constEnv (hdr : ImageHeader) (dur : Int) : Env Unit Unit :=
  { readDir := fun _ w => (some [], w)
    readFile := fun _ w => (some [], w)
    writeFile := fun _ _ w => (true, w)
    newDecoder := fun _ w => (some (), w)
    header := fun _ w => (some hdr, w)
    duration := fun _ _ => dur
    closeDecoder := fun _ w => w
    newImageOps := fun _ w => w
    closeOps := fun w => w
    transform := fun _ _ w => (some [], w)
    pathMatch := fun _ _ => (false, false)
    toLower := fun s => s.map Char.toLower
    rangeOrder := fun ks => ks
    rangeOrder_perm := fun ks => List.Perm.refl ks }

/-! ## Paths -/

theorem splitPath_ne_nil (p : GoString) : splitPath p ≠ [] := by
  cases p with
  | nil => simp [splitPath]
  | cons c cs =>
    simp only [splitPath]
    split
    · simp
    · split <;> simp

theorem splitPath_noSep (s : GoString) (hs : Separator ∉ s) : splitPath s = [s] := by
  induction s with
  | nil => rfl
  | cons c cs ih =>
    have hc : c ≠ Separator := fun h => hs (by simp [h])
    have hcs : Separator ∉ cs := fun h => hs (by simp [h])
    simp [splitPath, hc, ih hcs]

theorem splitPath_append_noSep (x : GoString) :
    ∃ init last, splitPath x = init ++ [last] ∧
      ∀ s : GoString, Separator ∉ s → splitPath (x ++ s) = init ++ [last ++ s] := by
  induction x with
  | nil =>
    exact ⟨[], [], rfl, fun s hs => by simpa using splitPath_noSep s hs⟩
  | cons c cs ih =>
    obtain ⟨init, last, h1, h2⟩ := ih
    by_cases hc : c = Separator
    · refine ⟨[] :: init, last, by simp [splitPath, hc, h1], fun s hs => ?_⟩
      simp [splitPath, hc, h2 s hs]
    · cases init with
      | nil =>
        refine ⟨[], c :: last, by simp [splitPath, hc, h1], fun s hs => ?_⟩
        have := h2 s hs
        simp only [List.nil_append] at this
        simp [splitPath, hc, this]
      | cons i is =>
        refine ⟨(c :: i) :: is, last, by simp [splitPath, hc, h1], fun s hs => ?_⟩
        have := h2 s hs
        simp only [List.cons_append] at this
        simp [splitPath, hc, this]

theorem splitPath_append_sep (x s : GoString) (hs : Separator ∉ s) :
    splitPath (x ++ Separator :: s) = splitPath x ++ [s] := by
  induction x with
  | nil => simp [splitPath, splitPath_noSep s hs]
  | cons c cs ih =>
    by_cases hc : c = Separator
    · simp [splitPath, hc, ih]
    · obtain ⟨a, as, h⟩ := List.exists_cons_of_ne_nil (splitPath_ne_nil cs)
      simp [splitPath, hc, ih, h]

theorem cleanStep_real (rooted : Bool) (b : CleanBuf) (e : GoString)
    (h1 : e ≠ []) (h2 : e ≠ ['.']) (h3 : e ≠ ['.', '.']) :
    (cleanStep rooted b e).out =
      (if (rooted && b.out.length != 1) || (!rooted && b.out.length != 0) then
        b.out ++ [Separator] else b.out) ++ e := by
  simp only [cleanStep, h1, h2, h3, if_false]
  split <;> simp

theorem Clean_of_split (p : GoString) (init : List GoString) (e : GoString)
    (hp : splitPath p = init ++ [e])
    (h1 : e ≠ []) (h2 : e ≠ ['.']) (h3 : e ≠ ['.', '.']) :
    Clean p = cleanPrefix (isRooted p) init ++ e := by
  have hne : p ≠ [] := by
    intro h
    rw [h] at hp
    cases init with
    | nil => simp [splitPath] at hp; exact h1 hp
    | cons a as =>
      simp [splitPath] at hp
  have hout : ((splitPath p).foldl (cleanStep (isRooted p)) (cleanInit (isRooted p))).out
      = cleanPrefix (isRooted p) init ++ e := by
    rw [hp, List.foldl_append]
    simp only [List.foldl_cons, List.foldl_nil]
    rw [cleanStep_real _ _ e h1 h2 h3]
    rfl
  simp only [Clean, hne, if_false, hout]
  have : cleanPrefix (isRooted p) init ++ e ≠ [] := by simp [h1]
  simp [this]

theorem extScan_append_sep (rn ry acc : List Char) (hs : Separator ∉ rn) :
    extScan (rn ++ Separator :: ry) acc = extScan rn acc := by
  induction rn generalizing acc with
  | nil => simp [extScan]
  | cons c cs ih =>
    have hc : c ≠ Separator := fun h => hs (by simp [h])
    have hcs : Separator ∉ cs := fun h => hs (by simp [h])
    simp only [List.cons_append, extScan, hc, if_false]
    split
    · rfl
    · exact ih _ hcs

theorem Ext_append_sep (y name : GoString) (hs : Separator ∉ name) :
    Ext (y ++ Separator :: name) = Ext name := by
  unfold Ext
  rw [List.reverse_append, List.reverse_cons, List.append_assoc]
  exact extScan_append_sep _ _ _ (by simpa using hs)

theorem backLoop_ge (out : List Char) (d w : Nat) (h : d ≤ w) : d ≤ backLoop out d w := by
  induction w with
  | zero => simpa [backLoop] using h
  | succ w ih =>
    simp only [backLoop]
    split
    · exact ih (by omega)
    · exact h

theorem cleanStep_rooted (rooted : Bool) (b : CleanBuf) (seg : GoString)
    (hb : CleanRooted rooted b) : CleanRooted rooted (cleanStep rooted b seg) := by
  intro hr
  obtain ⟨hd, t, ht⟩ := hb hr
  unfold cleanStep
  split
  · exact ⟨hd, t, ht⟩
  split
  · exact ⟨hd, t, ht⟩
  split
  · split
    · rename_i hlen
      refine ⟨hd, ?_⟩
      have hge : 1 ≤ backLoop b.out b.dotdot (b.out.length - 1) := by
        have := backLoop_ge b.out b.dotdot (b.out.length - 1) (by omega)
        omega
      obtain ⟨k, hk⟩ : ∃ k, backLoop b.out b.dotdot (b.out.length - 1) = k + 1 :=
        ⟨backLoop b.out b.dotdot (b.out.length - 1) - 1, by omega⟩
      exact ⟨t.take k, by simp only [hk]; rw [ht]; rfl⟩
    · simp only [hr]
      exact ⟨hd, t, ht⟩
  · split
    · exact ⟨hd, t ++ Separator :: seg, by simp [ht]⟩
    · exact ⟨hd, t ++ seg, by simp [ht]⟩

theorem foldl_cleanStep_rooted (rooted : Bool) (segs : List GoString) (b : CleanBuf)
    (hb : CleanRooted rooted b) : CleanRooted rooted (segs.foldl (cleanStep rooted) b) := by
  induction segs generalizing b with
  | nil => exact hb
  | cons a as ih => exact ih _ (cleanStep_rooted rooted b a hb)

theorem cleanInit_rooted (rooted : Bool) : CleanRooted rooted (cleanInit rooted) := by
  intro hr
  simp [cleanInit, hr]

theorem Ext_cleanPrefix_append (rooted : Bool) (init : List GoString) (name : GoString)
    (hs : Separator ∉ name) : Ext (cleanPrefix rooted init ++ name) = Ext name := by
  have hinv := foldl_cleanStep_rooted rooted init _ (cleanInit_rooted rooted)
  unfold cleanPrefix
  simp only []
  split
  · rw [List.append_assoc]
    exact Ext_append_sep _ _ hs
  · rename_i hc
    cases rooted with
    | false =>
      simp only [Bool.false_and, Bool.not_false, Bool.true_and, Bool.false_or, bne_iff_ne, ne_eq,
        not_not, List.length_eq_zero] at hc
      simp [hc]
    | true =>
      obtain ⟨_, t, ht⟩ := hinv rfl
      simp only [Bool.true_and, Bool.not_true, Bool.false_and, Bool.or_false, bne_iff_ne, ne_eq,
        not_not] at hc
      rw [ht] at hc ⊢
      have : t = [] := by
        simpa using hc
      rw [this]
      exact Ext_append_sep [] name hs

theorem isRooted_noSep (name : GoString) (hs : Separator ∉ name) : isRooted name = false := by
  cases name with
  | nil => rfl
  | cons c cs =>
    have hc : c ≠ Separator := fun h => hs (by simp [h])
    simp [isRooted, hc]

/-- Joining a directory and the name of an entry keeps the extension. -/
theorem Ext_Join (dir name : GoString) (hv : validName name) :
    Ext (Join dir name) = Ext name := by
  obtain ⟨h1, hs, h2, h3⟩ := hv
  unfold Join
  by_cases hd : dir = []
  · simp only [hd, ne_eq, not_true_eq_false, if_false, h1, not_false_eq_true, if_true]
    rw [Clean_of_split name [] name (by simpa using splitPath_noSep name hs) h1 h2 h3]
    exact Ext_cleanPrefix_append _ _ _ hs
  · simp only [ne_eq, hd, not_false_eq_true, if_true]
    rw [Clean_of_split _ (splitPath dir) name (splitPath_append_sep dir name hs) h1 h2 h3]
    exact Ext_cleanPrefix_append _ _ _ hs

theorem Clean_append_inj (x s1 s2 : GoString) (h1 : Separator ∉ s1) (h2 : Separator ∉ s2)
    (l1 : 3 ≤ s1.length) (l2 : 3 ≤ s2.length) (h : Clean (x ++ s1) = Clean (x ++ s2)) :
    s1 = s2 := by
  obtain ⟨init, last, _, hsplit⟩ := splitPath_append_noSep x
  have real : ∀ s : GoString, 3 ≤ s.length →
      last ++ s ≠ [] ∧ last ++ s ≠ ['.'] ∧ last ++ s ≠ ['.', '.'] := by
    intro s hl
    refine ⟨?_, ?_, ?_⟩ <;> intro h <;> have := congrArg List.length h <;>
      simp only [List.length_append, List.length_cons, List.length_nil] at this <;> omega
  have hroot : isRooted (x ++ s1) = isRooted (x ++ s2) := by
    cases x with
    | nil => simp [isRooted_noSep _ h1, isRooted_noSep _ h2]
    | cons c cs => rfl
  rw [Clean_of_split _ init _ (hsplit s1 h1) (real s1 l1).1 (real s1 l1).2.1 (real s1 l1).2.2,
    Clean_of_split _ init _ (hsplit s2 h2) (real s2 l2).1 (real s2 l2).2.1 (real s2 l2).2.2,
    hroot] at h
  exact List.append_cancel_left (List.append_cancel_left h)

/-- The two output paths of a graphical file are different. -/
theorem output_paths_ne (outDir filePath : GoString) :
    Join outDir (Base filePath ++ "_resized.webp".toList)
      ≠ Join outDir (Base filePath ++ "_resized_animated.webp".toList) := by
  intro h
  have key : ∀ x : GoString, Clean (x ++ "_resized.webp".toList)
      = Clean (x ++ "_resized_animated.webp".toList) → False := by
    intro x hx
    have := Clean_append_inj x _ _ (by decide) (by decide) (by decide) (by decide) hx
    exact absurd this (by decide)
  unfold Join at h
  by_cases hd : outDir = []
  · simp only [hd, ne_eq, not_true_eq_false, if_false] at h
    rw [if_pos (by simp), if_pos (by simp)] at h
    exact key _ h
  · simp only [ne_eq, hd, not_false_eq_true, if_true] at h
    have e : ∀ s : GoString, outDir ++ Separator :: (Base filePath ++ s)
        = (outDir ++ Separator :: Base filePath) ++ s := by
      intro s; simp
    rw [e, e] at h
    exact key _ h

/-! ## The map of file groups -/

theorem mapGet_nil (k : GoString) : mapGet [] k = [] := rfl

theorem mapGet_cons_self (m : FileGroups) (k : GoString) (v : List GoString) :
    mapGet ((k, v) :: m) k = v := by
  simp [mapGet, List.lookup]

theorem mapGet_cons_ne (m : FileGroups) (k k1 : GoString) (v : List GoString)
    (h : k1 ≠ k) : mapGet ((k, v) :: m) k1 = mapGet m k1 := by
  have hb : (k1 == k) = false := beq_false_of_ne h
  simp [mapGet, List.lookup, hb]

theorem mapGet_mapSet (m : FileGroups) (k k1 : GoString) (v : List GoString) :
    mapGet (mapSet m k v) k1 = if k1 = k then v else mapGet m k1 := by
  induction m with
  | nil =>
    by_cases h : k1 = k
    · simp [mapSet, h, mapGet_cons_self]
    · simp [mapSet, h, mapGet_cons_ne _ _ _ _ h]
  | cons a m ih =>
    obtain ⟨ka, va⟩ := a
    by_cases hka : ka = k
    · by_cases h : k1 = k
      · simp [mapSet, hka, h, mapGet_cons_self]
      · simp [mapSet, hka, h, mapGet_cons_ne _ _ _ _ h]
    · by_cases h1 : k1 = ka
      · have : ¬ k1 = k := by rw [h1]; exact hka
        simp [mapSet, hka, h1, mapGet_cons_self]
      · simp [mapSet, hka, mapGet_cons_ne _ _ _ _ h1, ih]

theorem mapKeys_mapSet (m : FileGroups) (k : GoString) (v : List GoString) :
    mapKeys (mapSet m k v) = if k ∈ mapKeys m then mapKeys m else mapKeys m ++ [k] := by
  induction m with
  | nil => simp [mapSet, mapKeys]
  | cons a m ih =>
    obtain ⟨ka, va⟩ := a
    by_cases hka : ka = k
    · simp [mapSet, mapKeys, hka]
    · have hk : ¬ k = ka := fun h => hka h.symm
      simp only [mapKeys] at ih
      by_cases hm : k ∈ List.map Prod.fst m
      · simp [mapSet, mapKeys, hka, hk, ih, hm]
      · simp [mapSet, mapKeys, hka, hk, ih, hm]

theorem mapKeys_mapSet_nodup (m : FileGroups) (k : GoString) (v : List GoString)
    (h : (mapKeys m).Nodup) : (mapKeys (mapSet m k v)).Nodup := by
  rw [mapKeys_mapSet]
  split
  · exact h
  · rename_i hk
    exact List.Nodup.append h (by simp) (by simpa using hk)

theorem mapSet_append_perm (m : FileGroups) (k x : GoString) :
    ((mapSet m k (mapGet m k ++ [x])).flatMap Prod.snd).Perm (m.flatMap Prod.snd ++ [x]) := by
  induction m with
  | nil => simp [mapSet, mapGet, List.lookup]
  | cons a m ih =>
    obtain ⟨ka, va⟩ := a
    by_cases hka : ka = k
    · simp only [mapSet, hka, if_true, mapGet, List.lookup, beq_self_eq_true,
        List.flatMap_cons, List.append_assoc]
      exact List.Perm.append_left va List.perm_append_comm
    · have hk : (k == ka) = false := by
        simpa using fun h : k = ka => hka h.symm
      have hg : mapGet ((ka, va) :: m) k = mapGet m k := by
        simp [mapGet, List.lookup, hk]
      rw [hg]
      simp only [mapSet, hka, if_false, List.flatMap_cons, List.append_assoc]
      exact List.Perm.append_left va ih

theorem buildGroups_nil {σ δ : Type} (env : Env σ δ) (dir : GoString) :
    buildGroups env dir [] = [] := rfl

theorem buildGroups_snoc {σ δ : Type} (env : Env σ δ) (dir : GoString)
    (files : List FileInfo) (f : FileInfo) :
    buildGroups env dir (files ++ [f]) =
      if f.isDir = false then
        mapSet (buildGroups env dir files) (env.toLower (Ext f.name))
          (mapGet (buildGroups env dir files) (env.toLower (Ext f.name)) ++ [Join dir f.name])
      else buildGroups env dir files := by
  simp only [buildGroups, List.foldl_append, List.foldl_cons, List.foldl_nil]
  cases f.isDir <;> simp

theorem buildGroups_get {σ δ : Type} (env : Env σ δ) (dir : GoString)
    (files : List FileInfo) (e : GoString) :
    mapGet (buildGroups env dir files) e =
      (files.filter (fun f => !f.isDir && decide (env.toLower (Ext f.name) = e))).map
        (fun f => Join dir f.name) := by
  induction files using List.reverseRecOn with
  | nil => simp [buildGroups_nil, mapGet, List.lookup]
  | append_singleton files f ih =>
    rw [buildGroups_snoc, List.filter_append, List.map_append, ← ih]
    cases hd : f.isDir with
    | true => simp [hd]
    | false =>
      simp only [if_true, mapGet_mapSet]
      by_cases he : e = env.toLower (Ext f.name)
      · simp [he, hd]
      · have he2 : ¬ env.toLower (Ext f.name) = e := fun h => he h.symm
        simp [he, he2, hd]

theorem buildGroups_keys {σ δ : Type} (env : Env σ δ) (dir : GoString)
    (files : List FileInfo) (e : GoString) :
    e ∈ mapKeys (buildGroups env dir files) ↔
      ∃ f ∈ files, f.isDir = false ∧ env.toLower (Ext f.name) = e := by
  induction files using List.reverseRecOn with
  | nil => simp [buildGroups_nil, mapKeys]
  | append_singleton files f ih =>
    rw [buildGroups_snoc]
    cases hd : f.isDir with
    | true =>
      simp only [Bool.true_eq_false, if_false, ih, List.mem_append, List.mem_singleton]
      constructor
      · rintro ⟨g, hg, h1, h2⟩
        exact ⟨g, Or.inl hg, h1, h2⟩
      · rintro ⟨g, hg | hg, h1, h2⟩
        · exact ⟨g, hg, h1, h2⟩
        · rw [hg, hd] at h1
          exact absurd h1 (by simp)
    | false =>
      simp only [if_true, mapKeys_mapSet]
      constructor
      · intro h
        have h2 : e ∈ mapKeys (buildGroups env dir files) ∨ e = env.toLower (Ext f.name) := by
          split at h
          · exact Or.inl h
          · simpa using h
        rcases h2 with h2 | h2
        · obtain ⟨g, hg, h3, h4⟩ := ih.mp h2
          exact ⟨g, by simp [hg], h3, h4⟩
        · exact ⟨f, by simp, hd, h2.symm⟩
      · rintro ⟨g, hg, h1, h2⟩
        rw [List.mem_append, List.mem_singleton] at hg
        rcases hg with hg | hg
        · have : e ∈ mapKeys (buildGroups env dir files) := ih.mpr ⟨g, hg, h1, h2⟩
          split
          · exact this
          · simp [this]
        · rw [hg] at h2
          split
          · rw [← h2]; assumption
          · simp [h2]

theorem buildGroups_nodup {σ δ : Type} (env : Env σ δ) (dir : GoString)
    (files : List FileInfo) : (mapKeys (buildGroups env dir files)).Nodup := by
  induction files using List.reverseRecOn with
  | nil => simp [buildGroups_nil, mapKeys]
  | append_singleton files f ih =>
    rw [buildGroups_snoc]
    split
    · exact mapKeys_mapSet_nodup _ _ _ ih
    · exact ih

theorem buildGroups_perm {σ δ : Type} (env : Env σ δ) (dir : GoString)
    (files : List FileInfo) :
    ((buildGroups env dir files).flatMap Prod.snd).Perm
      ((files.filter (fun f => !f.isDir)).map (fun f => Join dir f.name)) := by
  induction files using List.reverseRecOn with
  | nil => simp [buildGroups_nil]
  | append_singleton files f ih =>
    rw [buildGroups_snoc, List.filter_append, List.map_append]
    cases hd : f.isDir with
    | true => simpa [hd] using ih
    | false =>
      simp only [if_true]
      refine (mapSet_append_perm _ _ _).trans ?_
      simpa [hd] using List.Perm.append_right [Join dir f.name] ih

theorem fileGroups_spec_aux {σ δ : Type} (env : Env σ δ) (dir : GoString)
    (files : List FileInfo) :
    ∀ e path, path ∈ mapGet (buildGroups env dir files) e →
      ∃ f ∈ files, f.isDir = false ∧ env.toLower (Ext f.name) = e ∧
        path = Join dir f.name := by
  intro e path hp
  rw [buildGroups_get] at hp
  obtain ⟨f, hf, hj⟩ := List.mem_map.mp hp
  simp only [List.mem_filter, Bool.and_eq_true, Bool.not_eq_true', decide_eq_true_eq] at hf
  exact ⟨f, hf.1, hf.2.1, hf.2.2, hj.symm⟩

/-! ## What a per-file routine leaves alone -/

theorem performTransform_testsFailed {σ δ : Type} (env : Env σ δ) (decoder : δ)
    (options : ImageOptions) (filePath outDir suffix : GoString) (st : State σ) :
    (performTransform env decoder options filePath outDir suffix st).2.testsFailed
      = st.testsFailed := by
  simp only [performTransform]
  repeat' split
  all_goals simp [State.emit]

theorem testGraphicalBody_testsFailed {σ δ : Type} (env : Env σ δ)
    (filePath outDir : GoString) (st : State σ) :
    (testGraphicalBody env filePath outDir st).2.1.testsFailed = st.testsFailed := by
  simp only [testGraphicalBody]
  repeat' split
  all_goals simp [performTransform_testsFailed]

theorem testNonGraphicalBody_testsFailed {σ δ : Type} (env : Env σ δ)
    (filePath : GoString) (st : State σ) :
    (testNonGraphicalBody env filePath st).2.1.testsFailed = st.testsFailed := by
  simp only [testNonGraphicalBody]
  repeat' split
  all_goals simp

theorem isExpectedFailure_congr {σ δ : Type} (env : Env σ δ) (st st1 : State σ)
    (filePath : GoString) (h : st1.expectedFailures = st.expectedFailures) :
    isExpectedFailure env st1 filePath = isExpectedFailure env st filePath := by
  unfold isExpectedFailure
  rw [h]

theorem savedPaths_append (a b : List Line) :
    savedPaths (a ++ b) = savedPaths a ++ savedPaths b := by
  simp [savedPaths, List.filterMap_append]

theorem performTransform_saved {σ δ : Type} (env : Env σ δ) (decoder : δ)
    (options : ImageOptions) (filePath outDir suffix : GoString) (st : State σ) :
    savedPaths (performTransform env decoder options filePath outDir suffix st).2.stdout
      = savedPaths st.stdout ++
        (if (performTransform env decoder options filePath outDir suffix st).1 then []
          else [Join outDir (Base filePath ++ suffix)]) := by
  rcases ht : env.transform decoder options st.world with ⟨_ | rb, wa⟩
  · simp [performTransform, ht]
  rcases hn : env.newDecoder rb wa with ⟨_ | rd, wb⟩
  · simp [performTransform, ht, hn]
  rcases hh : env.header rd wb with ⟨_ | rh, wc⟩
  · simp [performTransform, ht, hn, hh]
  by_cases hm : rh.width ≠ options.Width ∨ rh.height ≠ options.Height
  · simp [performTransform, ht, hn, hh, hm]
  by_cases hw : (env.writeFile (Join outDir (Base filePath ++ suffix)) rb wc).1 = true
  · simp [performTransform, ht, hn, hh, hm, hw, State.emit, savedPaths_append, savedPaths]
  · simp [performTransform, ht, hn, hh, hm, hw]

theorem testGraphicalFile_saved {σ δ : Type} (env : Env σ δ) (filePath outDir : GoString)
    (st : State σ) :
    savedPaths (testGraphicalFile env filePath outDir st).stdout
      = savedPaths (testGraphicalBody env filePath outDir
          (st.emit (Line.testingGraphical filePath))).2.1.stdout := by
  simp only [testGraphicalFile]
  repeat' split
  all_goals simp [State.emit, savedPaths_append, savedPaths]

theorem testGraphicalBody_saved {σ δ : Type} (env : Env σ δ)
    (filePath outDir : GoString) (st : State σ) (buffer : Bytes) (decoder : δ)
    (header : ImageHeader) (w1 w2 w3 : σ)
    (hread : env.readFile filePath st.world = (some buffer, w1))
    (hdec : env.newDecoder buffer w1 = (some decoder, w2))
    (hhdr : env.header decoder w2 = (some header, w3)) :
    ∃ l, savedPaths (testGraphicalBody env filePath outDir st).2.1.stdout
        = savedPaths st.stdout ++ l ∧
      (header.isAnimated = true →
        ((testGraphicalBody env filePath outDir st).1 = false →
          l = [Join outDir (Base filePath ++ "_resized.webp".toList),
               Join outDir (Base filePath ++ "_resized_animated.webp".toList)]) ∧
        ((testGraphicalBody env filePath outDir st).1 = true → l.length < 2)) ∧
      (header.isAnimated = false →
        ((testGraphicalBody env filePath outDir st).1 = false →
          l = [Join outDir (Base filePath ++ "_resized.webp".toList)]) ∧
        ((testGraphicalBody env filePath outDir st).1 = true → l = [])) := by
  simp only [testGraphicalBody, hread, hdec, hhdr]
  generalize hr1 : performTransform env decoder (commonOptions header) filePath outDir
    "_resized.webp".toList { st with world := env.newImageOps 8192 w3 } = r1
  have hs1 := performTransform_saved env decoder (commonOptions header) filePath outDir
    "_resized.webp".toList { st with world := env.newImageOps 8192 w3 }
  rw [hr1] at hs1
  cases ha : header.isAnimated with
  | false =>
    simp only [Bool.false_eq_true, if_false]
    refine ⟨_, hs1, by simp, fun _ => ⟨fun h => by simp [h], fun h => by simp [h]⟩⟩
  | true =>
    simp only [if_true]
    rcases hn : env.newDecoder buffer r1.2.world with ⟨_ | decoder2, w5⟩
    · refine ⟨_, hs1, fun _ => ⟨by simp, fun _ => ?_⟩, by simp⟩
      split <;> simp
    · simp only []
      generalize hr2 : performTransform env decoder2
        { commonOptions header with DisableAnimatedOutput := false } filePath outDir
        "_resized_animated.webp".toList { r1.2 with world := w5 } = r2
      have hs2 := performTransform_saved env decoder2
        { commonOptions header with DisableAnimatedOutput := false } filePath outDir
        "_resized_animated.webp".toList { r1.2 with world := w5 }
      rw [hr2] at hs2
      simp only [hs1] at hs2
      refine ⟨_, by rw [hs2, List.append_assoc], fun _ => ⟨fun h => ?_, fun h => ?_⟩, by simp⟩
      · simp only [Bool.or_eq_false_iff] at h
        simp [h.1, h.2]
      · simp only [Bool.or_eq_true] at h
        rcases h with h | h <;> simp [h] <;> split <;> simp

/-! ## The run-level outcome -/

theorem testGraphicalBody_expectedFailures {σ δ : Type} (env : Env σ δ)
    (filePath outDir : GoString) (st : State σ) :
    (testGraphicalBody env filePath outDir st).2.1.expectedFailures = st.expectedFailures := by
  have hp : ∀ (d : δ) (o : ImageOptions) (suffix : GoString) (s : State σ),
      (performTransform env d o filePath outDir suffix s).2.expectedFailures
        = s.expectedFailures := by
    intro d o suffix s
    simp only [performTransform]
    repeat' split
    all_goals simp [State.emit]
  simp only [testGraphicalBody]
  repeat' split
  all_goals simp [hp]

theorem testNonGraphicalBody_expectedFailures {σ δ : Type} (env : Env σ δ)
    (filePath : GoString) (st : State σ) :
    (testNonGraphicalBody env filePath st).2.1.expectedFailures = st.expectedFailures := by
  simp only [testNonGraphicalBody]
  repeat' split
  all_goals simp

theorem processFile_expectedFailures {σ δ : Type} (env : Env σ δ)
    (outDir ext file : GoString) (st : State σ) :
    (processFile env outDir ext file st).expectedFailures = st.expectedFailures := by
  unfold processFile
  split
  · simp only [testGraphicalFile]
    repeat' split
    all_goals simp [State.emit, testGraphicalBody_expectedFailures]
  · simp only [testNonGraphicalFile]
    repeat' split
    all_goals simp [State.emit, testNonGraphicalBody_expectedFailures]

theorem processFile_testsFailed {σ δ : Type} (env : Env σ δ)
    (outDir ext file : GoString) (st : State σ) :
    (processFile env outDir ext file st).testsFailed
      = (st.testsFailed || fileUnexpected env outDir ext file st) := by
  have hg := isExpectedFailure_congr env st (st.emit (Line.testingGraphical file)) file rfl
  have hn := isExpectedFailure_congr env st (st.emit (Line.inspecting file)) file rfl
  unfold processFile fileUnexpected
  split
  · simp only [testGraphicalFile, hg]
    cases (testGraphicalBody env file outDir (st.emit (Line.testingGraphical file))).1 <;>
      cases isExpectedFailure env st file <;>
      simp [State.emit, testGraphicalBody_testsFailed]
  · simp only [testNonGraphicalFile, hn]
    cases (testNonGraphicalBody env file (st.emit (Line.inspecting file))).1 <;>
      cases isExpectedFailure env st file <;>
      simp [State.emit, testNonGraphicalBody_testsFailed]

theorem foldl_processFile_testsFailed {σ δ : Type} (env : Env σ δ)
    (outDir ext : GoString) (files : List GoString) (st : State σ) :
    (files.foldl (fun st file => processFile env outDir ext file st) st).testsFailed = true ↔
      st.testsFailed = true ∨ groupUnexpected env outDir ext files st ≠ [] := by
  induction files generalizing st with
  | nil => simp [groupUnexpected]
  | cons f fs ih =>
    simp only [List.foldl_cons, ih, processFile_testsFailed, groupUnexpected,
      Bool.or_eq_true]
    cases fileUnexpected env outDir ext f st <;> simp

theorem processGroup_testsFailed {σ δ : Type} (env : Env σ δ)
    (outDir ext : GoString) (files : List GoString) (st : State σ) :
    (processGroup env outDir ext files st).testsFailed = true ↔
      st.testsFailed = true ∨
        groupUnexpected env outDir ext files (st.emit (Line.processing ext)) ≠ [] := by
  unfold processGroup
  rw [foldl_processFile_testsFailed]
  rfl

theorem processGroups_testsFailed {σ δ : Type} (env : Env σ δ)
    (outDir : GoString) (fileGroups : FileGroups) (keys : List GoString) (st : State σ) :
    (processGroups env outDir fileGroups keys st).testsFailed = true ↔
      st.testsFailed = true ∨ runUnexpected env outDir fileGroups keys st ≠ [] := by
  induction keys generalizing st with
  | nil => simp [processGroups, runUnexpected]
  | cons k ks ih =>
    have ih2 := ih (processGroup env outDir k (mapGet fileGroups k) st)
    simp only [processGroups, List.foldl_cons] at ih2 ⊢
    rw [ih2, processGroup_testsFailed]
    simp only [runUnexpected, ne_eq, List.append_eq_nil, not_and]
    tauto

theorem groupUnexpected_subset {σ δ : Type} (env : Env σ δ) (outDir ext : GoString)
    (files : List GoString) (st : State σ) (path : GoString)
    (h : path ∈ groupUnexpected env outDir ext files st) : path ∈ files := by
  induction files generalizing st with
  | nil => simp [groupUnexpected] at h
  | cons f fs ih =>
    simp only [groupUnexpected, List.mem_append] at h
    rcases h with h | h
    · split at h
      · simp only [List.mem_singleton] at h
        simp [h]
      · simp at h
    · exact List.mem_cons_of_mem _ (ih _ h)

theorem runUnexpected_subset {σ δ : Type} (env : Env σ δ) (outDir : GoString)
    (fileGroups : FileGroups) (keys : List GoString) (st : State σ) (path : GoString)
    (h : path ∈ runUnexpected env outDir fileGroups keys st) :
    ∃ ext ∈ keys, path ∈ mapGet fileGroups ext := by
  induction keys generalizing st with
  | nil => simp [runUnexpected] at h
  | cons k ks ih =>
    simp only [runUnexpected, List.mem_append] at h
    rcases h with h | h
    · exact ⟨k, by simp, groupUnexpected_subset _ _ _ _ _ _ h⟩
    · obtain ⟨e, he, hp⟩ := ih _ h
      exact ⟨e, List.mem_cons_of_mem _ he, hp⟩

/-! ## The calls made by the driver -/

theorem callLines_append (a b : List Line) :
    callLines (a ++ b) = callLines a ++ callLines b := by
  simp [callLines, List.filter_append]

theorem performTransform_calls {σ δ : Type} (env : Env σ δ) (decoder : δ)
    (options : ImageOptions) (filePath outDir suffix : GoString) (st : State σ) :
    callLines (performTransform env decoder options filePath outDir suffix st).2.stdout
      = callLines st.stdout := by
  simp only [performTransform]
  repeat' split
  all_goals simp [State.emit, callLines_append, callLines, isCall]

theorem testGraphicalBody_calls {σ δ : Type} (env : Env σ δ)
    (filePath outDir : GoString) (st : State σ) :
    callLines (testGraphicalBody env filePath outDir st).2.1.stdout = callLines st.stdout := by
  simp only [testGraphicalBody]
  repeat' split
  all_goals simp [performTransform_calls]

theorem testNonGraphicalBody_calls {σ δ : Type} (env : Env σ δ)
    (filePath : GoString) (st : State σ) :
    callLines (testNonGraphicalBody env filePath st).2.1.stdout = callLines st.stdout := by
  simp only [testNonGraphicalBody]
  repeat' split
  all_goals simp

theorem processFile_calls {σ δ : Type} (env : Env σ δ) (outDir ext file : GoString)
    (st : State σ) :
    callLines (processFile env outDir ext file st).stdout
      = callLines st.stdout ++ [callLine ext file] := by
  unfold processFile callLine
  split
  · simp only [testGraphicalFile]
    repeat' split
    all_goals
      simp [State.emit, callLines_append, testGraphicalBody_calls]
      simp [callLines, isCall]
  · simp only [testNonGraphicalFile]
    repeat' split
    all_goals
      simp [State.emit, callLines_append, testNonGraphicalBody_calls]
      simp [callLines, isCall]

theorem foldl_processFile_calls {σ δ : Type} (env : Env σ δ) (outDir ext : GoString)
    (files : List GoString) (st : State σ) :
    callLines (files.foldl (fun st file => processFile env outDir ext file st) st).stdout
      = callLines st.stdout ++ files.map (callLine ext) := by
  induction files generalizing st with
  | nil => simp
  | cons f fs ih => simp [ih, processFile_calls]

theorem processGroup_calls {σ δ : Type} (env : Env σ δ) (outDir ext : GoString)
    (files : List GoString) (st : State σ) :
    callLines (processGroup env outDir ext files st).stdout
      = callLines st.stdout ++ files.map (callLine ext) := by
  unfold processGroup
  rw [foldl_processFile_calls]
  simp [State.emit, callLines_append, callLines, isCall]

theorem processGroups_calls {σ δ : Type} (env : Env σ δ) (outDir : GoString)
    (fileGroups : FileGroups) (keys : List GoString) (st : State σ) :
    callLines (processGroups env outDir fileGroups keys st).stdout
      = callLines st.stdout ++
          keys.flatMap (fun ext => (mapGet fileGroups ext).map (callLine ext)) := by
  induction keys generalizing st with
  | nil => simp [processGroups]
  | cons k ks ih =>
    have ih2 := ih (processGroup env outDir k (mapGet fileGroups k) st)
    simp only [processGroups, List.foldl_cons] at ih2 ⊢
    rw [ih2, processGroup_calls]
    simp

/-! ## The claims -/

/-- C6: `isExpectedFailure` returns true exactly when the pattern is not
empty, `filepath.Match` reports no error for it, and it matches the base name
of the path; an empty pattern gives false for every path, and so does a pattern
for which the match reports an error. -/
theorem isExpectedFailure_iff {σ δ : Type} (env : Env σ δ) (st : State σ)
    (filePath : GoString) :
    (isExpectedFailure env st filePath = true ↔
      (st.expectedFailures ≠ [] ∧
        (env.pathMatch st.expectedFailures (Base filePath)).2 = false ∧
        (env.pathMatch st.expectedFailures (Base filePath)).1 = true)) ∧
    (st.expectedFailures = [] → isExpectedFailure env st filePath = false) ∧
    ((env.pathMatch st.expectedFailures (Base filePath)).2 = true →
      isExpectedFailure env st filePath = false) := by
  unfold isExpectedFailure
  by_cases hp : st.expectedFailures = []
  · simp [hp]
  · rcases hm : env.pathMatch st.expectedFailures (Base filePath) with ⟨m, e⟩
    cases e <;> simp [hp]

/-- C1: when `isExpectedFailure` holds for a file, neither `testGraphicalFile`
nor `testNonGraphicalFile` changes `testsFailed`, whatever the file read and the
decoder and transform calls return. -/
theorem expected_failure_keeps_testsFailed {σ δ : Type} (env : Env σ δ)
    (filePath outDir : GoString) (st : State σ)
    (h : isExpectedFailure env st filePath = true) :
    (testGraphicalFile env filePath outDir st).testsFailed = st.testsFailed ∧
    (testNonGraphicalFile env filePath outDir st).testsFailed = st.testsFailed := by
  have hg : isExpectedFailure env (st.emit (Line.testingGraphical filePath)) filePath = true := by
    exact (isExpectedFailure_congr env st _ filePath rfl).trans h
  have hn : isExpectedFailure env (st.emit (Line.inspecting filePath)) filePath = true := by
    exact (isExpectedFailure_congr env st _ filePath rfl).trans h
  constructor
  · unfold testGraphicalFile
    simp only [hg]
    split <;> simp [State.emit, testGraphicalBody_testsFailed]
  · unfold testNonGraphicalFile
    simp only [hn]
    split <;> simp [State.emit, testNonGraphicalBody_testsFailed]

/-- A run of C1: the unreadable file `in/bad.png` under the pattern `bad.png`. -/
theorem expected_failure_keeps_testsFailed_witness :
    isExpectedFailure (simEnv (fun _ => none) none simMatch)
      { initState [] with expectedFailures := "bad.png".toList } "in/bad.png".toList = true ∧
    ((testGraphicalFile (simEnv (fun _ => none) none simMatch) "in/bad.png".toList "out".toList
        { initState [] with expectedFailures := "bad.png".toList }).testsFailed
      = (({ initState [] with expectedFailures := "bad.png".toList } :
          State (List GoString))).testsFailed ∧
    (testNonGraphicalFile (simEnv (fun _ => none) none simMatch) "in/bad.png".toList
        "out".toList { initState [] with expectedFailures := "bad.png".toList }).testsFailed
      = (({ initState [] with expectedFailures := "bad.png".toList } :
          State (List GoString))).testsFailed) :=
  ⟨by decide,
    expected_failure_keeps_testsFailed (simEnv (fun _ => none) none simMatch)
      "in/bad.png".toList "out".toList
      { initState [] with expectedFailures := "bad.png".toList } (by decide)⟩

/-- C4: for a graphical file whose bytes, decoder and header are obtained, with
the static transform `performTransform` run by `testGraphicalFile` on the common
options and the suffix `_resized.webp`: if it returns no error, the produced
bytes were decoded again to a header whose width and height are the source
width and height divided by 2 (truncated division); if the header decoded from
the produced bytes differs from these, it returns an error; and if it returns
an error, the file is marked failed. -/
theorem static_transform_dimensions {σ δ : Type} (env : Env σ δ)
    (filePath outDir : GoString) (st : State σ) (buffer : Bytes) (decoder : δ)
    (header : ImageHeader) (w1 w2 w3 : σ)
    (hread : env.readFile filePath st.world = (some buffer, w1))
    (hdec : env.newDecoder buffer w1 = (some decoder, w2))
    (hhdr : env.header decoder w2 = (some header, w3)) :
    ((performTransform env decoder (commonOptions header) filePath outDir
        "_resized.webp".toList { st with world := env.newImageOps 8192 w3 }).1 = false →
      ∃ resized wa resizedDecoder wb resizedHeader wc,
        env.transform decoder (commonOptions header) (env.newImageOps 8192 w3)
          = (some resized, wa) ∧
        env.newDecoder resized wa = (some resizedDecoder, wb) ∧
        env.header resizedDecoder wb = (some resizedHeader, wc) ∧
        resizedHeader.width = header.width.tdiv 2 ∧
        resizedHeader.height = header.height.tdiv 2) ∧
    (∀ resized wa resizedDecoder wb resizedHeader wc,
      env.transform decoder (commonOptions header) (env.newImageOps 8192 w3)
          = (some resized, wa) →
      env.newDecoder resized wa = (some resizedDecoder, wb) →
      env.header resizedDecoder wb = (some resizedHeader, wc) →
      (resizedHeader.width ≠ header.width.tdiv 2 ∨
        resizedHeader.height ≠ header.height.tdiv 2) →
      (performTransform env decoder (commonOptions header) filePath outDir
        "_resized.webp".toList { st with world := env.newImageOps 8192 w3 }).1 = true) ∧
    ((performTransform env decoder (commonOptions header) filePath outDir
        "_resized.webp".toList { st with world := env.newImageOps 8192 w3 }).1 = true →
      (testGraphicalBody env filePath outDir st).1 = true) := by
  refine ⟨?_, ?_, ?_⟩
  · intro h
    rcases ht : env.transform decoder (commonOptions header) (env.newImageOps 8192 w3)
      with ⟨_ | resized, wa⟩
    · simp [performTransform, ht] at h
    rcases hn : env.newDecoder resized wa with ⟨_ | resizedDecoder, wb⟩
    · simp [performTransform, ht, hn] at h
    rcases hh : env.header resizedDecoder wb with ⟨_ | resizedHeader, wc⟩
    · simp [performTransform, ht, hn, hh] at h
    refine ⟨resized, wa, resizedDecoder, wb, resizedHeader, wc, rfl, hn, hh, ?_⟩
    by_cases hm : resizedHeader.width ≠ (commonOptions header).Width ∨
        resizedHeader.height ≠ (commonOptions header).Height
    · simp [performTransform, ht, hn, hh, hm] at h
    · simp only [not_or, not_not] at hm
      exact hm
  · intro resized wa resizedDecoder wb resizedHeader wc ht hn hh hm
    have hm2 : resizedHeader.width ≠ (commonOptions header).Width ∨
        resizedHeader.height ≠ (commonOptions header).Height := hm
    simp [performTransform, ht, hn, hh, hm2]
  · intro h
    simp only [testGraphicalBody, hread, hdec, hhdr]
    split
    · split
      · rfl
      · simp only [h, Bool.true_or]
    · exact h

/-- A run of C4: the readable static image `in/a.png` of 64 by 64. -/
theorem static_transform_dimensions_witness :
    (testGraphicalFile (simEnv (fun _ => some [64, 64, 1, 99]) none simMatch)
      "in/a.png".toList "out".toList (initState [])).testsFailed = false ∧
    (performTransform (simEnv (fun _ => some [64, 64, 1, 99]) none simMatch)
        (⟨64, 64, false⟩, -1) (commonOptions ⟨64, 64, false⟩) "in/a.png".toList "out".toList
        "_resized.webp".toList (initState ([] : List GoString))).1 = false ∧
    ∃ resized wa resizedDecoder wb resizedHeader wc,
      (simEnv (fun _ => some [64, 64, 1, 99]) none simMatch).transform (⟨64, 64, false⟩, -1)
          (commonOptions ⟨64, 64, false⟩) [] = (some resized, wa) ∧
        (simEnv (fun _ => some [64, 64, 1, 99]) none simMatch).newDecoder resized wa
          = (some resizedDecoder, wb) ∧
        (simEnv (fun _ => some [64, 64, 1, 99]) none simMatch).header resizedDecoder wb
          = (some resizedHeader, wc) ∧
        resizedHeader.width = (64 : Int).tdiv 2 ∧
        resizedHeader.height = (64 : Int).tdiv 2 :=
  ⟨by decide, by decide,
    (static_transform_dimensions (simEnv (fun _ => some [64, 64, 1, 99]) none simMatch)
      "in/a.png".toList "out".toList (initState []) [64, 64, 1, 99] (⟨64, 64, false⟩, -1)
      ⟨64, 64, false⟩ [] [] [] rfl (by decide) rfl).1 (by decide)⟩

/-- C5, as the code has it: for a graphical file whose bytes, decoder and
header are obtained, the output files `testGraphicalFile` writes are, for an
animated source, exactly the two files `<name>_resized.webp` and
`<name>_resized_animated.webp` (two different paths) when the file is not marked
failed and fewer than two when it is; for a source that is not animated,
exactly the file `<name>_resized.webp` when the file is not marked failed and
none when it is. -/
theorem graphical_outputs {σ δ : Type} (env : Env σ δ)
    (filePath outDir : GoString) (st : State σ) (buffer : Bytes) (decoder : δ)
    (header : ImageHeader) (w1 w2 w3 : σ)
    (hread : env.readFile filePath st.world = (some buffer, w1))
    (hdec : env.newDecoder buffer w1 = (some decoder, w2))
    (hhdr : env.header decoder w2 = (some header, w3)) :
    (∃ l, savedPaths (testGraphicalFile env filePath outDir st).stdout
        = savedPaths st.stdout ++ l ∧
      (header.isAnimated = true →
        ((testGraphicalBody env filePath outDir
            (st.emit (Line.testingGraphical filePath))).1 = false →
          l = [Join outDir (Base filePath ++ "_resized.webp".toList),
               Join outDir (Base filePath ++ "_resized_animated.webp".toList)]) ∧
        ((testGraphicalBody env filePath outDir
            (st.emit (Line.testingGraphical filePath))).1 = true → l.length < 2)) ∧
      (header.isAnimated = false →
        ((testGraphicalBody env filePath outDir
            (st.emit (Line.testingGraphical filePath))).1 = false →
          l = [Join outDir (Base filePath ++ "_resized.webp".toList)]) ∧
        ((testGraphicalBody env filePath outDir
            (st.emit (Line.testingGraphical filePath))).1 = true → l = []))) ∧
    Join outDir (Base filePath ++ "_resized.webp".toList)
      ≠ Join outDir (Base filePath ++ "_resized_animated.webp".toList) := by
  refine ⟨?_, output_paths_ne outDir filePath⟩
  obtain ⟨l, h1, h2⟩ := testGraphicalBody_saved env filePath outDir
    (st.emit (Line.testingGraphical filePath)) buffer decoder header w1 w2 w3 hread hdec hhdr
  refine ⟨l, ?_, h2⟩
  rw [testGraphicalFile_saved, h1]
  simp [State.emit, savedPaths_append, savedPaths]

/-- A run of C5: the animated image `in/b.gif` of 32 by 32. -/
theorem graphical_outputs_witness :
    (∃ l, savedPaths (testGraphicalFile (simEnv (fun _ => some [32, 32, 5, 99]) none simMatch)
          "in/b.gif".toList "out".toList (initState [])).stdout
        = savedPaths (initState ([] : List GoString)).stdout ++ l ∧
      ((⟨32, 32, true⟩ : ImageHeader).isAnimated = true →
        ((testGraphicalBody (simEnv (fun _ => some [32, 32, 5, 99]) none simMatch)
            "in/b.gif".toList "out".toList
            ((initState []).emit (Line.testingGraphical "in/b.gif".toList))).1 = false →
          l = [Join "out".toList (Base "in/b.gif".toList ++ "_resized.webp".toList),
               Join "out".toList (Base "in/b.gif".toList ++ "_resized_animated.webp".toList)]) ∧
        ((testGraphicalBody (simEnv (fun _ => some [32, 32, 5, 99]) none simMatch)
            "in/b.gif".toList "out".toList
            ((initState []).emit (Line.testingGraphical "in/b.gif".toList))).1 = true →
          l.length < 2)) ∧
      ((⟨32, 32, true⟩ : ImageHeader).isAnimated = false →
        ((testGraphicalBody (simEnv (fun _ => some [32, 32, 5, 99]) none simMatch)
            "in/b.gif".toList "out".toList
            ((initState []).emit (Line.testingGraphical "in/b.gif".toList))).1 = false →
          l = [Join "out".toList (Base "in/b.gif".toList ++ "_resized.webp".toList)]) ∧
        ((testGraphicalBody (simEnv (fun _ => some [32, 32, 5, 99]) none simMatch)
            "in/b.gif".toList "out".toList
            ((initState []).emit (Line.testingGraphical "in/b.gif".toList))).1 = true →
          l = []))) ∧
    Join "out".toList (Base "in/b.gif".toList ++ "_resized.webp".toList)
      ≠ Join "out".toList (Base "in/b.gif".toList ++ "_resized_animated.webp".toList) :=
  graphical_outputs (simEnv (fun _ => some [32, 32, 5, 99]) none simMatch)
    "in/b.gif".toList "out".toList (initState []) [32, 32, 5, 99] (⟨32, 32, true⟩, -1)
    ⟨32, 32, true⟩ [] [] [] rfl (by decide) rfl

/-- C5 as stated fails: the animated image `in/b.gif`, whose bytes, decoder and
header are obtained, is processed by `testGraphicalFile` in a world whose
transform fails, and no output file is written. -/
theorem animated_without_outputs :
    (noTransformEnv (fun _ => some [32, 32, 5, 99])).readFile "in/b.gif".toList []
      = (some [32, 32, 5, 99], []) ∧
    (noTransformEnv (fun _ => some [32, 32, 5, 99])).newDecoder [32, 32, 5, 99] []
      = (some (⟨32, 32, true⟩, -1), []) ∧
    (noTransformEnv (fun _ => some [32, 32, 5, 99])).header (⟨32, 32, true⟩, -1) []
      = (some ⟨32, 32, true⟩, []) ∧
    savedPaths (testGraphicalFile (noTransformEnv (fun _ => some [32, 32, 5, 99]))
      "in/b.gif".toList "out".toList (initState [])).stdout = [] ∧
    (testGraphicalFile (noTransformEnv (fun _ => some [32, 32, 5, 99]))
      "in/b.gif".toList "out".toList (initState [])).world = [] := by
  refine ⟨rfl, by decide, rfl, by decide, by decide⟩

/-- C7: for every directory listing, the grouping built by `processTestFiles`
maps each key `e` to the joined paths of the entries that are not directories
and whose lowercased extension is `e`, in the order of the listing; its keys
are distinct and are exactly the lowercased extensions of such entries; all
groups together hold each such entry exactly once (they are a permutation of
the joined paths of the entries that are not directories); and every member of
a group comes from an entry that is not a directory. -/
theorem fileGroups_spec {σ δ : Type} (env : Env σ δ) (dir : GoString)
    (files : List FileInfo) :
    (∀ e, mapGet (buildGroups env dir files) e =
      (files.filter (fun f => !f.isDir && decide (env.toLower (Ext f.name) = e))).map
        (fun f => Join dir f.name)) ∧
    (∀ e, e ∈ mapKeys (buildGroups env dir files) ↔
      ∃ f ∈ files, f.isDir = false ∧ env.toLower (Ext f.name) = e) ∧
    (mapKeys (buildGroups env dir files)).Nodup ∧
    ((buildGroups env dir files).flatMap Prod.snd).Perm
      ((files.filter (fun f => !f.isDir)).map (fun f => Join dir f.name)) ∧
    (∀ f ∈ files, f.isDir = false →
      Join dir f.name ∈ mapGet (buildGroups env dir files) (env.toLower (Ext f.name))) ∧
    (∀ e path, path ∈ mapGet (buildGroups env dir files) e →
      ∃ f ∈ files, f.isDir = false ∧ env.toLower (Ext f.name) = e ∧
        path = Join dir f.name) := by
  refine ⟨buildGroups_get env dir files, buildGroups_keys env dir files,
    buildGroups_nodup env dir files, buildGroups_perm env dir files, ?_, ?_⟩
  · intro f hf hd
    rw [buildGroups_get]
    exact List.mem_map.mpr ⟨f, by simp [List.mem_filter, hf, hd], rfl⟩
  · intro e path hp
    rw [buildGroups_get] at hp
    obtain ⟨f, hf, hj⟩ := List.mem_map.mp hp
    simp only [List.mem_filter, Bool.and_eq_true, Bool.not_eq_true', decide_eq_true_eq] at hf
    exact ⟨f, hf.1, hf.2.1, hf.2.2, hj.symm⟩

/-- C2: started with at least the two required arguments, with `testsFailed`
false and a directory that can be read, `main` exits with code 0 exactly when
no processed file has an unexpected failure (its processing sets `failed` while
`isExpectedFailure` is false for it), and with code 1 otherwise; the files with
an unexpected failure are files of the directory; and no per-file call resets
`testsFailed` from true to false. -/
theorem main_exit_code {σ δ : Type} (env : Env σ δ) (args : List GoString) (st : State σ)
    (files : List FileInfo) (w : σ)
    (hargs : 3 ≤ args.length) (h0 : st.testsFailed = false)
    (hdir : env.readDir (args.getD 1 []) st.world = (some files, w)) :
    ((main env args st).1 = 0 ↔
      runUnexpected env (args.getD 2 []) (buildGroups env (args.getD 1 []) files)
        (env.rangeOrder (mapKeys (buildGroups env (args.getD 1 []) files)))
        { setExpectedFailures args st with world := w } = []) ∧
    ((main env args st).1 ≠ 0 → (main env args st).1 = 1) ∧
    (∀ path ∈ runUnexpected env (args.getD 2 []) (buildGroups env (args.getD 1 []) files)
        (env.rangeOrder (mapKeys (buildGroups env (args.getD 1 []) files)))
        { setExpectedFailures args st with world := w },
      ∃ f ∈ files, f.isDir = false ∧ path = Join (args.getD 1 []) f.name) ∧
    (∀ (filePath outDir : GoString) (s : State σ), s.testsFailed = true →
      (testGraphicalFile env filePath outDir s).testsFailed = true ∧
      (testNonGraphicalFile env filePath outDir s).testsFailed = true) := by
  have hlen : ¬ args.length < 3 := by omega
  have hw : (setExpectedFailures args st).world = st.world := by
    unfold setExpectedFailures
    split <;> rfl
  have hf : (setExpectedFailures args st).testsFailed = false := by
    unfold setExpectedFailures
    split <;> simp [h0]
  have key : ∀ (out : GoString) (g : FileGroups) (ks : List GoString) (s1 : State σ),
      s1.testsFailed = false →
      ((if (processGroups env out g ks s1).testsFailed then 1 else 0 : Nat) = 0 ↔
        runUnexpected env out g ks s1 = []) := by
    intro out g ks s1 h1
    have hrun := processGroups_testsFailed env out g ks s1
    rw [h1] at hrun
    cases hpf : (processGroups env out g ks s1).testsFailed with
    | false =>
      simp only [Bool.false_eq_true, if_false, true_iff]
      by_contra hne
      have := hrun.mpr (Or.inr hne)
      rw [hpf] at this
      cases this
    | true =>
      simp only [if_true, one_ne_zero, false_iff]
      rcases hrun.mp hpf with h | h
      · cases h
      · exact h
  have hmain : (main env args st).1 =
      if (processGroups env (args.getD 2 []) (buildGroups env (args.getD 1 []) files)
        (env.rangeOrder (mapKeys (buildGroups env (args.getD 1 []) files)))
        { setExpectedFailures args st with world := w }).testsFailed then 1 else 0 := by
    simp only [main, hlen, if_false, processTestFiles, hw, hdir]
    split <;> rfl
  refine ⟨?_, ?_, ?_, ?_⟩
  · rw [hmain]
    exact key _ _ _ _ hf
  · rw [hmain]
    split <;> simp
  · intro path hp
    obtain ⟨e, _, hp2⟩ := runUnexpected_subset _ _ _ _ _ _ hp
    obtain ⟨f, hf1, hf2, _, hf3⟩ := (fileGroups_spec_aux env (args.getD 1 []) files) e path hp2
    exact ⟨f, hf1, hf2, hf3⟩
  · intro filePath outDir s hs
    constructor
    · simp only [testGraphicalFile]
      repeat' split
      all_goals simp [State.emit, testGraphicalBody_testsFailed, hs]
    · simp only [testNonGraphicalFile]
      repeat' split
      all_goals simp [State.emit, testNonGraphicalBody_testsFailed, hs]

/-- A run of C2: the directory `in` holds a video of duration 0, and `main`
exits with code 1 without a pattern and with code 0 under the pattern
`broken.mp4`. -/
theorem main_exit_code_witness :
    ((main demoEnv ["prog".toList, "in".toList, "out".toList] (initState [])).1 = 0 ↔
      runUnexpected demoEnv "out".toList (buildGroups demoEnv "in".toList demoListing)
        (demoEnv.rangeOrder (mapKeys (buildGroups demoEnv "in".toList demoListing)))
        { setExpectedFailures ["prog".toList, "in".toList, "out".toList]
            (initState ([] : List GoString)) with world := [] } = []) ∧
    (main demoEnv ["prog".toList, "in".toList, "out".toList] (initState [])).1 = 1 ∧
    (main demoEnv ["prog".toList, "in".toList, "out".toList, "broken.mp4".toList]
      (initState [])).1 = 0 ∧
    (main demoEnv ["prog".toList, "in".toList, "out".toList] (initState [])).2.world
      = ["out/a.png_resized.webp".toList, "out/b.gif_resized.webp".toList,
         "out/b.gif_resized_animated.webp".toList] :=
  ⟨(main_exit_code demoEnv ["prog".toList, "in".toList, "out".toList] (initState [])
      demoListing [] (by decide) rfl rfl).1,
    by decide, by decide, by decide⟩

/-- C10: for every directory listing (of names of directory entries), the
calls `processTestFiles` makes are recorded on standard output, and
`testNonGraphicalFile` is called only on joined paths of files of the
directory whose lowercased extension is not a graphical format, so never on a
path with the extension `.webp`; the extension recomputed from a joined path is
the key of its group; every file with the lowercased extension `.webp` is
handed to `testGraphicalFile`; and `testGraphicalFile` does not mark a file
failed when all its calls succeed and the produced header has the halved
dimensions, whatever the source dimensions are, zero included. -/
theorem driver_dispatch {σ δ : Type} (env : Env σ δ) (dir outDir : GoString)
    (st : State σ) (files : List FileInfo) (w : σ)
    (hdir : env.readDir dir st.world = (some files, w))
    (hvalid : ∀ f ∈ files, f.isDir = false → validName f.name) :
    (∃ st1 l, processTestFiles env dir outDir st = Except.ok st1 ∧
      callLines st1.stdout = callLines st.stdout ++ l ∧
      (∀ path, Line.inspecting path ∈ l →
        graphicalFormats (env.toLower (Ext path)) = false ∧
        env.toLower (Ext path) ≠ ".webp".toList ∧
        ∃ f ∈ files, f.isDir = false ∧ path = Join dir f.name) ∧
      (∀ f ∈ files, f.isDir = false → env.toLower (Ext f.name) = ".webp".toList →
        Line.testingGraphical (Join dir f.name) ∈ l)) ∧
    (∀ ext path, path ∈ mapGet (buildGroups env dir files) ext →
      env.toLower (Ext path) = ext) ∧
    (∀ (filePath : GoString) (s : State σ) (buffer resized : Bytes) (decoder resizedDecoder : δ)
      (header resizedHeader : ImageHeader) (w1 w2 w3 wa wb wc : σ),
      env.readFile filePath s.world = (some buffer, w1) →
      env.newDecoder buffer w1 = (some decoder, w2) →
      env.header decoder w2 = (some header, w3) →
      header.isAnimated = false →
      env.transform decoder (commonOptions header) (env.newImageOps 8192 w3)
        = (some resized, wa) →
      env.newDecoder resized wa = (some resizedDecoder, wb) →
      env.header resizedDecoder wb = (some resizedHeader, wc) →
      resizedHeader.width = header.width.tdiv 2 →
      resizedHeader.height = header.height.tdiv 2 →
      (env.writeFile (Join outDir (Base filePath ++ "_resized.webp".toList)) resized wc).1
        = true →
      (testGraphicalBody env filePath outDir s).1 = false) := by
  have hkey : ∀ ext path, path ∈ mapGet (buildGroups env dir files) ext →
      env.toLower (Ext path) = ext := by
    intro ext path hp
    obtain ⟨f, hf, hd, he, hj⟩ := fileGroups_spec_aux env dir files ext path hp
    rw [hj, Ext_Join dir f.name (hvalid f hf hd), he]
  refine ⟨?_, hkey, ?_⟩
  · refine ⟨processGroups env outDir (buildGroups env dir files)
        (env.rangeOrder (mapKeys (buildGroups env dir files))) { st with world := w },
      (env.rangeOrder (mapKeys (buildGroups env dir files))).flatMap
        (fun ext => (mapGet (buildGroups env dir files) ext).map (callLine ext)),
      by simp only [processTestFiles, hdir], ?_, ?_, ?_⟩
    · rw [processGroups_calls]
    · intro path hp
      simp only [List.mem_flatMap, List.mem_map] at hp
      obtain ⟨ext, _, file, hfile, hline⟩ := hp
      unfold callLine at hline
      split at hline
      · cases hline
      · rename_i hg
        cases hline
        have hext := hkey ext path hfile
        obtain ⟨f, hf, hd, _, hj⟩ := fileGroups_spec_aux env dir files ext path hfile
        rw [hext]
        refine ⟨by simpa using hg, ?_, f, hf, hd, hj⟩
        intro hwebp
        rw [hwebp] at hg
        exact hg (by decide)
    · intro f hf hd hwebp
      simp only [List.mem_flatMap, List.mem_map]
      refine ⟨".webp".toList, ?_, Join dir f.name, ?_, ?_⟩
      · rw [(env.rangeOrder_perm _).mem_iff, buildGroups_keys]
        exact ⟨f, hf, hd, hwebp⟩
      · rw [buildGroups_get]
        exact List.mem_map.mpr ⟨f, by simp [List.mem_filter, hf, hd, hwebp], rfl⟩
      · unfold callLine
        rw [if_pos (by decide)]
  · intro filePath s buffer resized decoder resizedDecoder header resizedHeader
      w1 w2 w3 wa wb wc hread hdec hhdr hanim ht hn hh hw1 hw2 hwr
    have hm : ¬ (resizedHeader.width ≠ (commonOptions header).Width ∨
        resizedHeader.height ≠ (commonOptions header).Height) := by
      simp [commonOptions, hw1, hw2]
    simp only [testGraphicalBody, hread, hdec, hhdr, hanim, performTransform, ht, hn, hh, hm,
      hwr, if_true, if_false, Bool.false_eq_true]

/-- A run of C10: a directory with `z.webp`, whose header has width and
height 0, and `v.mp4`: the image goes to `testGraphicalFile`, the video to
`testNonGraphicalFile`, and the run ends with code 0. -/
theorem driver_dispatch_witness :
    (∀ f ∈ zeroListing, f.isDir = false → validName f.name) ∧
    (∀ ext path, path ∈ mapGet (buildGroups zeroEnv "in".toList zeroListing) ext →
      zeroEnv.toLower (Ext path) = ext) ∧
    callLines (main zeroEnv ["prog".toList, "in".toList, "out".toList] (initState [])).2.stdout
      = [Line.testingGraphical "in/z.webp".toList, Line.inspecting "in/v.mp4".toList] ∧
    (main zeroEnv ["prog".toList, "in".toList, "out".toList] (initState [])).1 = 0 :=
  ⟨by decide,
    (driver_dispatch zeroEnv "in".toList "out".toList (initState []) zeroListing []
      rfl (by decide)).2.1,
    by decide, by decide⟩

/-- C3, as the code has it: for a file whose lowercased extension is `.mp4` or
`.webm`, with the header and the duration the decoder returned, if
`testNonGraphicalFile` does not mark the file failed then the width and the
height are not zero and the duration is positive; so the width and the height
are positive when the decoder reports them non-negative. -/
theorem video_not_failed_dimensions {σ δ : Type} (env : Env σ δ) (filePath : GoString)
    (st : State σ) (buffer : Bytes) (decoder : δ) (header : ImageHeader) (w1 w2 w3 : σ)
    (hext : env.toLower (Ext filePath) = ".mp4".toList ∨
      env.toLower (Ext filePath) = ".webm".toList)
    (hread : env.readFile filePath st.world = (some buffer, w1))
    (hdec : env.newDecoder buffer w1 = (some decoder, w2))
    (hhdr : env.header decoder w2 = (some header, w3))
    (hok : (testNonGraphicalBody env filePath st).1 = false) :
    header.width ≠ 0 ∧ header.height ≠ 0 ∧ 0 < env.duration decoder w3 ∧
    (0 ≤ header.width → 0 < header.width) ∧ (0 ≤ header.height → 0 < header.height) := by
  simp only [testNonGraphicalBody, hread, hdec, hhdr, extensionChecks, hext, if_true] at hok
  have hd : ¬ env.duration decoder w3 ≤ 0 := by
    intro h
    simp [h] at hok
  have hwh : ¬ (header.width = 0 ∨ header.height = 0) := by
    intro h
    simp [h] at hok
  have hw : header.width ≠ 0 := fun h => hwh (Or.inl h)
  have hh : header.height ≠ 0 := fun h => hwh (Or.inr h)
  refine ⟨hw, hh, by omega, fun h => by omega, fun h => by omega⟩

/-- A run of C3: the file `v.mp4` with a header of 64 by 48 and duration 5. -/
theorem video_not_failed_dimensions_witness :
    ((64 : Int) ≠ 0 ∧ (48 : Int) ≠ 0 ∧ (0 : Int) < 5 ∧
      ((0 : Int) ≤ 64 → (0 : Int) < 64) ∧ ((0 : Int) ≤ 48 → (0 : Int) < 48)) :=
  video_not_failed_dimensions (constEnv ⟨64, 48, false⟩ 5) "v.mp4".toList (initState ())
    [] () ⟨64, 48, false⟩ () () () (Or.inl (by decide)) rfl rfl rfl (by decide)

/-- C3 as stated fails: the file `v.mp4` whose header has width -1 and height 5,
with duration 1, is inspected without being marked failed, and `testsFailed`
stays false, although its width is not positive. -/
theorem video_negative_width_not_failed :
    (constEnv ⟨-1, 5, false⟩ 1).toLower (Ext "v.mp4".toList) = ".mp4".toList ∧
    (constEnv ⟨-1, 5, false⟩ 1).header () () = (some ⟨-1, 5, false⟩, ()) ∧
    (constEnv ⟨-1, 5, false⟩ 1).duration () () = 1 ∧
    (testNonGraphicalBody (constEnv ⟨-1, 5, false⟩ 1) "v.mp4".toList (initState ())).1 = false ∧
    (testNonGraphicalFile (constEnv ⟨-1, 5, false⟩ 1) "v.mp4".toList "out".toList
      (initState ())).testsFailed = false ∧
    ¬ ((0 : Int) < (⟨-1, 5, false⟩ : ImageHeader).width) := by
  refine ⟨by decide, rfl, rfl, by decide, by decide, by decide⟩

/-- C8: for a file whose lowercased extension is `.mp3`, `.ogg`, `.flac` or
`.wav`, whose bytes, decoder and header are obtained, `testNonGraphicalFile`
marks the file failed exactly when the duration is at most zero, whatever the
header. -/
theorem audio_failed_iff_duration {σ δ : Type} (env : Env σ δ) (filePath : GoString)
    (st : State σ) (buffer : Bytes) (decoder : δ) (header : ImageHeader) (w1 w2 w3 : σ)
    (hext : env.toLower (Ext filePath) = ".mp3".toList ∨
      env.toLower (Ext filePath) = ".ogg".toList ∨
      env.toLower (Ext filePath) = ".flac".toList ∨
      env.toLower (Ext filePath) = ".wav".toList)
    (hread : env.readFile filePath st.world = (some buffer, w1))
    (hdec : env.newDecoder buffer w1 = (some decoder, w2))
    (hhdr : env.header decoder w2 = (some header, w3)) :
    (testNonGraphicalBody env filePath st).1 = true ↔ env.duration decoder w3 ≤ 0 := by
  simp only [testNonGraphicalBody, hread, hdec, hhdr, extensionChecks]
  rcases hext with h | h | h | h <;> rw [h] <;> simp

/-- A run of C8: the file `s.ogg` with duration 0 is marked failed. -/
theorem audio_failed_iff_duration_witness :
    (testNonGraphicalBody (constEnv ⟨0, 0, false⟩ 0) "s.ogg".toList (initState ())).1 = true ↔
      (constEnv ⟨0, 0, false⟩ 0).duration () () ≤ 0 :=
  audio_failed_iff_duration (constEnv ⟨0, 0, false⟩ 0) "s.ogg".toList (initState ())
    [] () ⟨0, 0, false⟩ () () () (Or.inr (Or.inl (by decide))) rfl rfl rfl

/-- C9: for a file whose lowercased extension is `.aac`, whose bytes, decoder
and header are obtained, `testNonGraphicalFile` does not mark the file failed
and leaves `testsFailed` unchanged, for every duration. -/
theorem aac_never_failed {σ δ : Type} (env : Env σ δ) (filePath outDir : GoString)
    (st : State σ) (buffer : Bytes) (decoder : δ) (header : ImageHeader) (w1 w2 w3 : σ)
    (hext : env.toLower (Ext filePath) = ".aac".toList)
    (hread : env.readFile filePath st.world = (some buffer, w1))
    (hdec : env.newDecoder buffer w1 = (some decoder, w2))
    (hhdr : env.header decoder w2 = (some header, w3)) :
    (testNonGraphicalBody env filePath st).1 = false ∧
    (testNonGraphicalFile env filePath outDir st).testsFailed = st.testsFailed := by
  have hb : ∀ s : State σ, s.world = st.world → (testNonGraphicalBody env filePath s).1 = false := by
    intro s hs
    simp only [testNonGraphicalBody, hs, hread, hdec, hhdr, extensionChecks, hext]
    rw [if_neg (by decide), if_neg (by decide), if_pos trivial]
  have h0 := hb (st.emit (Line.inspecting filePath)) rfl
  refine ⟨hb st rfl, ?_⟩
  unfold testNonGraphicalFile
  simp only [h0]
  simp [State.emit, testNonGraphicalBody_testsFailed]

/-- A run of C9: the file `s.aac` with duration -7. -/
theorem aac_never_failed_witness :
    (testNonGraphicalBody (constEnv ⟨0, 0, false⟩ (-7)) "s.aac".toList (initState ())).1 = false ∧
    (testNonGraphicalFile (constEnv ⟨0, 0, false⟩ (-7)) "s.aac".toList "out".toList
      (initState ())).testsFailed = (initState ()).testsFailed :=
  aac_never_failed (constEnv ⟨0, 0, false⟩ (-7)) "s.aac".toList "out".toList (initState ())
    [] () ⟨0, 0, false⟩ () () () (by decide) rfl rfl rfl

end MediaTesting
